import Mathlib

/-!
Verification of the multi-agent session-management layer of
`pettingzoo/atari/base_atari_env.py` (`ParallelAtariEnv`).

The emulator (`multi_agent_ale_py.ALEInterface`) is external: we model it as
an oracle.  For `step`, the emulator's answers for one tick (per-slot rewards,
game-over flag, per-slot lives, the shared observation buffer) are passed in
as an `AleStepResult`.  For construction, the queried capabilities
(filesystem, available modes, active player count, minimal action set) are
bundled in an `AleModel`.  All adapter bookkeeping — the dense action vector,
truncation/termination dictionaries, pruning of the active set — is
translated directly from the Python source.
-/

/-- Agent identities are opaque strings such as "first_0". -/
abbrev AgentID := String

/-- Observation buffers (RAM snapshot or frame buffer) as abstract byte lists. -/
abbrev Obs := List Nat

/-- Lookup in an association list modelling a Python dict
(first binding wins; the adapter never builds duplicate keys). -/
def dictLookup {β : Type} : List (AgentID × β) → AgentID → Option β
  | [], _ => none
  | p :: rest, a => if p.1 = a then some p.2 else dictLookup rest a

/-- The keys of an association list modelling a Python dict. -/
def keys {β : Type} (l : List (AgentID × β)) : List AgentID :=
  l.map Prod.fst

/-- Adapter state: the fields of `ParallelAtariEnv` the session layer uses.
`terminations` is the `self.terminations` dict set by `reset`;
`screen` models whether the lazy pygame surface `self._screen` exists. -/
structure EnvState where
  possible_agents : List AgentID
  agents : List AgentID
  frame : Nat
  max_cycles : Nat
  action_mapping : List Nat
  terminations : List (AgentID × Bool)
  render_mode : Option String
  obs_type : String
  screen : Bool
deriving Repr, DecidableEq

/-- What the emulator reports during one `step` call:
`rewards` is `ale.act(actions)`, `game_over` is `ale.game_over()`,
`lives` is `ale.allLives()`, `obs` the buffer read by `_observe`. -/
structure AleStepResult where
  rewards : List Int
  game_over : Bool
  lives : List Int
  obs : Obs
deriving Repr, DecidableEq

/-- The five dictionaries returned by `step`, plus `sentActions`: the dense
native action vector handed to `ale.act` (recorded so the construction of the
emulator call can be reasoned about). -/
structure StepOutput where
  sentActions : List Nat
  observations : List (AgentID × Obs)
  rewards : List (AgentID × Int)
  terminations : List (AgentID × Bool)
  truncations : List (AgentID × Bool)
  infos : List (AgentID × List (String × String))
deriving Repr, DecidableEq

/-- The loop `for i, agent in enumerate(self.possible_agents): if agent in
action_dict: actions[i] = action_dict[agent]` writing into a zero-initialised
vector `acc`, starting at index `i`. -/
def buildActionsLoop (action_dict : AgentID → Option Nat) :
    List AgentID → List Nat → Nat → List Nat
  | [], acc, _ => acc
  | agent :: rest, acc, i =>
    match action_dict agent with
    | some v => buildActionsLoop action_dict rest (acc.set i v) (i + 1)
    | none => buildActionsLoop action_dict rest acc (i + 1)

/-- `actions = np.zeros(self.max_num_agents)` followed by the fill loop:
one slot per possible agent (`max_num_agents = len(possible_agents)`). -/
def buildActions (possible : List AgentID) (action_dict : AgentID → Option Nat) :
    List Nat :=
  buildActionsLoop action_dict possible (List.replicate possible.length 0) 0

/-- The `terminations` dict built inside `step` (it is both returned and
used to prune `self.agents`): on emulator game-over every active agent is
flagged, otherwise the per-slot life counts are zipped against the possible
agents and an active slot is flagged iff its life count is negative. -/
def stepTerminations (s : EnvState) (ale : AleStepResult) :
    List (AgentID × Bool) :=
  if ale.game_over then
    s.agents.map (fun agent => (agent, true))
  else
    (s.possible_agents.zip ale.lives).filterMap
      (fun p => if p.1 ∈ s.agents then some (p.1, decide (p.2 < 0)) else none)

/-- `ParallelAtariEnv.step`.  `action_dict` models the `actions` mapping
(`some` iff the agent is a key).  Mirrors the source line by line:
build the dense vector, translate through `action_mapping`, call the
emulator (oracle `ale`), bump the frame counter, build truncations,
terminations, observations, rewards and infos dicts, then prune
`self.agents` by the termination flags. -/
def ParallelAtariEnv.step (s : EnvState) (action_dict : AgentID → Option Nat)
    (ale : AleStepResult) : StepOutput × EnvState :=
  let actions := buildActions s.possible_agents action_dict
  let nativeActions := actions.map (fun j => s.action_mapping.getD j 0)
  let frame := s.frame + 1
  let truncations :=
    s.agents.map (fun agent => (agent, decide (frame ≥ s.max_cycles)))
  let terminations := stepTerminations s ale
  let observations := s.agents.map (fun agent => (agent, ale.obs))
  let rewards :=
    (s.possible_agents.zip ale.rewards).filterMap
      (fun p => if p.1 ∈ s.agents then some p else none)
  let infos :=
    s.possible_agents.filterMap
      (fun agent =>
        if agent ∈ s.agents then some (agent, ([] : List (String × String)))
        else none)
  let newAgents :=
    s.agents.filter (fun agent => !(dictLookup terminations agent).getD false)
  (⟨nativeActions, observations, rewards, terminations, truncations, infos⟩,
   { s with agents := newAgents, frame := frame })

/-- `ParallelAtariEnv.reset` (seeding is out of scope): resets the game,
restores `self.agents = self.possible_agents[:]`, clears `self.terminations`,
zeroes the frame counter, and returns one shared observation per active agent
plus empty per-agent infos.  `obs` is the oracle's answer to `_observe`. -/
def ParallelAtariEnv.reset (s : EnvState) (obs : Obs) :
    (List (AgentID × Obs) × List (AgentID × List (String × String))) × EnvState :=
  let agents := s.possible_agents
  let terminations := s.possible_agents.map (fun agent => (agent, false))
  let infos :=
    s.possible_agents.filterMap
      (fun agent =>
        if agent ∈ agents then some (agent, ([] : List (String × String)))
        else none)
  let observations := agents.map (fun agent => (agent, obs))
  ((observations, infos),
   { s with agents := agents, terminations := terminations, frame := 0 })

/-- Result of `render`: `frame` is the returned pixel array (`none` models
Python `None`), `warned` records the no-render-mode warning, `failed` the
assertion failure on an unsupported mode. -/
structure RenderResult where
  frame : Option Obs
  warned : Bool
  failed : Bool
deriving Repr, DecidableEq

/-- `ParallelAtariEnv.render`.  `img` is the oracle's `ale.getScreenRGB()`.
With no render mode: warn and return `None`, touching nothing.  In "human"
mode the lazy screen surface is created and the frame blitted; in
"rgb_array" mode the image is returned. -/
def ParallelAtariEnv.render (s : EnvState) (img : Obs) :
    RenderResult × EnvState :=
  match s.render_mode with
  | none => ({ frame := none, warned := true, failed := false }, s)
  | some m =>
    if m = "human" ∨ m = "rgb_array" then
      if m = "human" then
        ({ frame := none, warned := false, failed := false },
         { s with screen := true })
      else
        ({ frame := some img, warned := false, failed := false }, s)
    else
      ({ frame := none, warned := false, failed := true }, s)

/-- The emulator/environment capabilities queried during `__init__`:
`packageDir` is `Path(multi_agent_ale_py.__file__).parent`, `fileExists`
the filesystem, `availableModes n` is `ale.getAvailableModes(n)`,
`numPlayersActive m` what `ale.numPlayersActive()` reports after
`setMode(m)`, `minimalActionSet` is `ale.getMinimalActionSet()`. -/
structure AleModel where
  packageDir : String
  fileExists : String → Bool
  availableModes : Nat → List Nat
  numPlayersActive : Nat → Nat
  minimalActionSet : List Nat

/-- How `__init__` can fail: the `obs_type` assertion, the `OSError` for a
missing ROM (the spec's ResourceNotFoundError), the `mode_num` /
`numPlayersActive` assertions (the spec's ConfigurationError), and the
IndexError on `all_modes[0]` when the emulator enumerates no mode. -/
inductive InitError
  | validationError
  | resourceNotFound
  | configurationError
  | indexError
deriving Repr, DecidableEq

/-- The directory the ROM search starts from: the package directory unless
`auto_rom_install_path` is given. -/
def initStart (ale : AleModel) (auto_rom_install_path : Option String) : String :=
  match auto_rom_install_path with
  | none => ale.packageDir
  | some p => p

/-- First search location: `start / f"{game}.bin"`. -/
def romCand1 (start game : String) : String :=
  start ++ "/" ++ game ++ ".bin"

/-- Second search location: `start / "roms" / f"{game}.bin"`. -/
def romCand2 (start game : String) : String :=
  start ++ "/roms/" ++ game ++ ".bin"

/-- Third search location (legacy AutoROM layout):
`start / "ROM" / game / f"{game}.bin"`. -/
def romCand3 (start game : String) : String :=
  start ++ "/ROM/" ++ game ++ "/" ++ game ++ ".bin"

/-- The cascaded `final.exists()` checks of `__init__`: first hit wins,
`none` when the ROM is absent from all three locations. -/
def romSearch (fe : String → Bool) (start game : String) : Option String :=
  if fe (romCand1 start game) then some (romCand1 start game)
  else if fe (romCand2 start game) then some (romCand2 start game)
  else if fe (romCand3 start game) then some (romCand3 start game)
  else none

/-- Mode selection: `all_modes[0]` when `mode_num is None`, otherwise the
asserted membership `mode in all_modes`. -/
def resolveMode (all_modes : List Nat) (mode_num : Option Nat) :
    Except InitError Nat :=
  match mode_num with
  | none =>
    match all_modes.head? with
    | some m => Except.ok m
    | none => Except.error InitError.indexError
  | some m =>
    if m ∈ all_modes then Except.ok m
    else Except.error InitError.configurationError

/-- `ParallelAtariEnv.__init__`, in source order: validate `obs_type`,
search for the ROM, enumerate modes for `num_players`, resolve/assert the
mode, assert `num_players == ale.numPlayersActive()`, build the action
mapping (18 actions or the minimal set) and the agent roster
`["first_0", ...]` truncated to `num_players`.  In Python `self.frame` and
`self.terminations` are first set by `reset`; here they start at `0` / `[]`. -/
def ParallelAtariEnv.init (ale : AleModel) (game : String) (num_players : Nat)
    (mode_num : Option Nat) (obs_type : String) (full_action_space : Bool)
    (max_cycles : Nat) (render_mode : Option String)
    (auto_rom_install_path : Option String) : Except InitError EnvState :=
  if obs_type = "ram" ∨ obs_type = "rgb_image" ∨ obs_type = "grayscale_image" then
    let start := initStart ale auto_rom_install_path
    match romSearch ale.fileExists start game with
    | none => Except.error InitError.resourceNotFound
    | some _rom_path =>
      let all_modes := ale.availableModes num_players
      match resolveMode all_modes mode_num with
      | Except.error e => Except.error e
      | Except.ok mode =>
        if num_players = ale.numPlayersActive mode then
          let action_mapping :=
            if full_action_space then List.range 18 else ale.minimalActionSet
          let player_names := ["first", "second", "third", "fourth"]
          let agents :=
            (List.range num_players).map
              (fun n => player_names.getD n "" ++ "_0")
          Except.ok
            { possible_agents := agents, agents := agents, frame := 0,
              max_cycles := max_cycles, action_mapping := action_mapping,
              terminations := [], render_mode := render_mode,
              obs_type := obs_type, screen := false }
        else Except.error InitError.configurationError
  else Except.error InitError.validationError

/-- One step's worth of caller input plus emulator answers, for multi-step
runs. -/
structure StepInput where
  action_dict : AgentID → Option Nat
  ale : AleStepResult

/-- Iterate `step` over a list of inputs, collecting the outputs. -/
def ParallelAtariEnv.run (s : EnvState) :
    List StepInput → List StepOutput × EnvState
  | [] => ([], s)
  | inp :: rest =>
    let r1 := ParallelAtariEnv.step s inp.action_dict inp.ale
    let r2 := ParallelAtariEnv.run r1.2 rest
    (r1.1 :: r2.1, r2.2)

/-! ### Helper lemmas about the dictionary encodings -/

/-- A key absent from a dict is not found by lookup. -/
theorem dictLookup_eq_none_of_not_mem_keys {β : Type} :
    ∀ (l : List (AgentID × β)) (a : AgentID), a ∉ keys l → dictLookup l a = none := by
  intro l
  induction l with
  | nil => intro a _; rfl
  | cons p rest ih =>
    intro a ha
    simp only [keys, List.map_cons, List.mem_cons, not_or] at ha
    have hne : p.1 ≠ a := fun he => ha.1 he.symm
    simp only [dictLookup, if_neg hne]
    exact ih a ha.2

/-- Looking up a mapped constant-value dict. -/
theorem dictLookup_map_pair {β : Type} (f : AgentID → β) :
    ∀ (l : List AgentID) (a : AgentID), a ∈ l →
      dictLookup (l.map (fun x => (x, f x))) a = some (f a) := by
  intro l
  induction l with
  | nil => intro a ha; simp at ha
  | cons x xs ih =>
    intro a ha
    simp only [List.map_cons, dictLookup]
    by_cases hxa : x = a
    · subst hxa; simp
    · rw [if_neg hxa]
      rcases List.mem_cons.mp ha with h | h
      · exact absurd h.symm hxa
      · exact ih a h

/-- Keys produced by a guarded `filterMap` all satisfy the guard. -/
theorem mem_keys_filterMap_guard {α β : Type} (g : α → Option (AgentID × β))
    (agents : List AgentID) (hg : ∀ p q, g p = some q → q.1 ∈ agents) :
    ∀ (l : List α) (a : AgentID), a ∈ keys (l.filterMap g) → a ∈ agents := by
  intro l a ha
  simp only [keys, List.mem_map] at ha
  obtain ⟨q, hq, hqa⟩ := ha
  obtain ⟨p, _, hpq⟩ := List.mem_filterMap.mp hq
  exact hqa ▸ hg p q hpq

/-- Filtering a duplicate-free list down to a sublist by membership recovers
the sublist. -/
theorem filter_mem_of_sublist {agents possible : List AgentID}
    (hsub : agents.Sublist possible) (hnd : possible.Nodup) :
    possible.filter (fun a => decide (a ∈ agents)) = agents := by
  induction hsub with
  | slnil => rfl
  | cons b h ih =>
    rename_i l1 l2
    have hb : b ∉ l2 := (List.nodup_cons.mp hnd).1
    have hbn : b ∉ l1 := fun hmem => hb (h.subset hmem)
    simp only [List.filter_cons]
    rw [if_neg (by simp [hbn])]
    exact ih (List.nodup_cons.mp hnd).2
  | cons₂ b h ih =>
    rename_i l1 l2
    have hb : b ∉ l2 := (List.nodup_cons.mp hnd).1
    simp only [List.filter_cons]
    rw [if_pos (by simp)]
    rw [List.filter_congr (fun x hx => ?_), ih (List.nodup_cons.mp hnd).2]
    have hxb : x ≠ b := fun he => hb (he ▸ hx)
    simp [List.mem_cons, hxb]

/-- Keys of the guarded `zip`-`filterMap` dicts built by `step`:
they are the possible agents passing the active-set guard, as long as the
emulator vector covers every slot. -/
theorem keys_zip_filterMap {β γ : Type} (f : AgentID → β → γ)
    (agents : List AgentID) :
    ∀ (possible : List AgentID) (l : List β), possible.length ≤ l.length →
    keys ((possible.zip l).filterMap
      (fun p => if p.1 ∈ agents then some (p.1, f p.1 p.2) else none)) =
    possible.filter (fun a => decide (a ∈ agents)) := by
  intro possible
  induction possible with
  | nil => intro l _; rfl
  | cons a ps ih =>
    intro l h
    cases l with
    | nil => simp at h
    | cons b l2 =>
      have hlen2 : ps.length ≤ l2.length := Nat.le_of_succ_le_succ h
      have hih := ih l2 hlen2
      simp only [keys] at hih ⊢
      by_cases hmem : a ∈ agents
      · rw [List.zip_cons_cons,
          List.filterMap_cons_some (by rw [if_pos hmem]),
          List.filter_cons, if_pos (by simpa using hmem),
          List.map_cons, hih]
      · rw [List.zip_cons_cons,
          List.filterMap_cons_none (by rw [if_neg hmem]),
          List.filter_cons, if_neg (by simpa using hmem), hih]

/-- Looking up an active agent in the lives-derived terminations dict yields
the flag computed from the life count its slot is zipped with. -/
theorem dictLookup_zip_filterMap (agents : List AgentID) :
    ∀ (possible : List AgentID) (l : List Int), possible.Nodup →
    ∀ (a : AgentID) (life : Int), (a, life) ∈ possible.zip l → a ∈ agents →
    dictLookup ((possible.zip l).filterMap
      (fun p => if p.1 ∈ agents then some (p.1, decide (p.2 < 0)) else none)) a
      = some (decide (life < 0)) := by
  intro possible
  induction possible with
  | nil => intro l _ a life hmem; simp at hmem
  | cons x ps ih =>
    intro l hnd a life hmem hag
    cases l with
    | nil => simp at hmem
    | cons b l2 =>
      rw [List.zip_cons_cons] at hmem ⊢
      rcases List.mem_cons.mp hmem with heq | htail
      · obtain ⟨rfl, rfl⟩ : x = a ∧ b = life := by
          constructor
          · exact congrArg Prod.fst heq.symm
          · exact congrArg Prod.snd heq.symm
        rw [List.filterMap_cons_some (by rw [if_pos hag])]
        simp [dictLookup]
      · have hx : a ∈ ps := (List.of_mem_zip htail).1
        have hne : x ≠ a := fun he => (List.nodup_cons.mp hnd).1 (he ▸ hx)
        by_cases hxmem : x ∈ agents
        · rw [List.filterMap_cons_some (by rw [if_pos hxmem])]
          simp only [dictLookup, if_neg hne]
          exact ih l2 (List.nodup_cons.mp hnd).2 a life htail hag
        · rw [List.filterMap_cons_none (by rw [if_neg hxmem])]
          exact ih l2 (List.nodup_cons.mp hnd).2 a life htail hag

/-- Every member of a list the zip vector covers is zipped with some value. -/
theorem exists_zip_pair {β : Type} :
    ∀ (possible : List AgentID) (l : List β) (a : AgentID),
    a ∈ possible → possible.length ≤ l.length →
    ∃ b, (a, b) ∈ possible.zip l := by
  intro possible
  induction possible with
  | nil => intro l a h _; simp at h
  | cons x ps ih =>
    intro l a ha hlen
    cases l with
    | nil => simp at hlen
    | cons b l2 =>
      rcases List.mem_cons.mp ha with rfl | htail
      · exact ⟨b, by simp⟩
      · obtain ⟨c, hc⟩ := ih l2 a htail (Nat.le_of_succ_le_succ hlen)
        exact ⟨c, by simp [hc]⟩

/-- A guarded `filterMap` whose guard is satisfied everywhere is a `map`. -/
theorem filterMap_guard_eq_map {β : Type} (c : β) :
    ∀ (l m : List AgentID), (∀ a ∈ l, a ∈ m) →
    l.filterMap (fun a => if a ∈ m then some (a, c) else none) =
      l.map (fun a => (a, c)) := by
  intro l
  induction l with
  | nil => intro m _; rfl
  | cons x xs ih =>
    intro m h
    rw [List.filterMap_cons_some (by rw [if_pos (h x (List.mem_cons_self x xs))]),
      List.map_cons, ih m (fun a ha => h a (List.mem_cons_of_mem x ha))]

/-- Keys of the guarded info dict are the possible agents passing the guard. -/
theorem keys_filterMap_guard {β : Type} (c : β) (agents : List AgentID) :
    ∀ (l : List AgentID),
    keys (l.filterMap (fun a => if a ∈ agents then some (a, c) else none)) =
      l.filter (fun a => decide (a ∈ agents)) := by
  intro l
  induction l with
  | nil => rfl
  | cons x xs ih =>
    have hih := ih
    simp only [keys] at hih ⊢
    by_cases hx : x ∈ agents
    · rw [List.filterMap_cons_some (by rw [if_pos hx]),
        List.filter_cons, if_pos (by simpa using hx), List.map_cons, hih]
    · rw [List.filterMap_cons_none (by rw [if_neg hx]),
        List.filter_cons, if_neg (by simpa using hx), hih]

/-! ### Unfolding lemmas for `step` and `run` -/

theorem step_sentActions (s : EnvState) (d : AgentID → Option Nat)
    (ale : AleStepResult) :
    (ParallelAtariEnv.step s d ale).1.sentActions =
      (buildActions s.possible_agents d).map
        (fun j => s.action_mapping.getD j 0) := rfl

theorem step_observations (s : EnvState) (d : AgentID → Option Nat)
    (ale : AleStepResult) :
    (ParallelAtariEnv.step s d ale).1.observations =
      s.agents.map (fun agent => (agent, ale.obs)) := rfl

theorem step_rewards (s : EnvState) (d : AgentID → Option Nat)
    (ale : AleStepResult) :
    (ParallelAtariEnv.step s d ale).1.rewards =
      (s.possible_agents.zip ale.rewards).filterMap
        (fun p => if p.1 ∈ s.agents then some p else none) := rfl

theorem step_terminations (s : EnvState) (d : AgentID → Option Nat)
    (ale : AleStepResult) :
    (ParallelAtariEnv.step s d ale).1.terminations = stepTerminations s ale := rfl

theorem step_truncations (s : EnvState) (d : AgentID → Option Nat)
    (ale : AleStepResult) :
    (ParallelAtariEnv.step s d ale).1.truncations =
      s.agents.map (fun agent => (agent, decide (s.frame + 1 ≥ s.max_cycles))) := rfl

theorem step_infos (s : EnvState) (d : AgentID → Option Nat)
    (ale : AleStepResult) :
    (ParallelAtariEnv.step s d ale).1.infos =
      s.possible_agents.filterMap
        (fun agent =>
          if agent ∈ s.agents then some (agent, ([] : List (String × String)))
          else none) := rfl

theorem step_new_agents (s : EnvState) (d : AgentID → Option Nat)
    (ale : AleStepResult) :
    (ParallelAtariEnv.step s d ale).2.agents =
      s.agents.filter
        (fun agent => !(dictLookup (stepTerminations s ale) agent).getD false) := rfl

theorem step_frame (s : EnvState) (d : AgentID → Option Nat)
    (ale : AleStepResult) :
    (ParallelAtariEnv.step s d ale).2.frame = s.frame + 1 := rfl

theorem step_max_cycles (s : EnvState) (d : AgentID → Option Nat)
    (ale : AleStepResult) :
    (ParallelAtariEnv.step s d ale).2.max_cycles = s.max_cycles := rfl

theorem run_nil (s : EnvState) : ParallelAtariEnv.run s [] = ([], s) := rfl

theorem run_cons (s : EnvState) (inp : StepInput) (rest : List StepInput) :
    ParallelAtariEnv.run s (inp :: rest) =
      ((ParallelAtariEnv.step s inp.action_dict inp.ale).1 ::
        (ParallelAtariEnv.run
          (ParallelAtariEnv.step s inp.action_dict inp.ale).2 rest).1,
       (ParallelAtariEnv.run
         (ParallelAtariEnv.step s inp.action_dict inp.ale).2 rest).2) := rfl

/-! ### The dense action vector -/

/-- The fill loop writes the supplied (or defaulted-to-zero) action of the
`j`-th remaining agent into slot `i + j`: starting from `ys` followed by
zero padding, it yields `ys` followed by the per-agent values. -/
theorem buildActionsLoop_eq (action_dict : AgentID → Option Nat) :
    ∀ (agents : List AgentID) (ys : List Nat),
    buildActionsLoop action_dict agents
        (ys ++ List.replicate agents.length 0) ys.length =
      ys ++ agents.map (fun a => (action_dict a).getD 0) := by
  intro agents
  induction agents with
  | nil => intro ys; simp [buildActionsLoop]
  | cons a rest ih =>
    intro ys
    simp only [List.length_cons, List.replicate_succ]
    cases hda : action_dict a with
    | some v =>
      have hset : (ys ++ 0 :: List.replicate rest.length 0).set ys.length v
          = (ys ++ [v]) ++ List.replicate rest.length 0 := by
        rw [List.set_append_right _ _ (Nat.le_refl ys.length), Nat.sub_self]
        simp
      have hidx : ys.length + 1 = (ys ++ [v]).length := by simp
      simp only [buildActionsLoop, hda, hset, hidx, ih (ys ++ [v])]
      simp [hda]
    | none =>
      have hacc : ys ++ 0 :: List.replicate rest.length 0
          = (ys ++ [0]) ++ List.replicate rest.length 0 := by simp
      have hidx : ys.length + 1 = (ys ++ [0]).length := by simp
      simp only [buildActionsLoop, hda, hacc, hidx, ih (ys ++ [0])]
      simp [hda]

/-- The dense action vector holds, slot by slot, each possible agent's
supplied action (zero when the agent is absent from the mapping). -/
theorem buildActions_eq (possible : List AgentID)
    (action_dict : AgentID → Option Nat) :
    buildActions possible action_dict =
      possible.map (fun a => (action_dict a).getD 0) := by
  have h := buildActionsLoop_eq action_dict possible []
  simpa [buildActions] using h

/-! ### Key-set lemmas for the dictionaries built by `step` -/

/-- Every key of the terminations dict is an active agent. -/
theorem mem_keys_stepTerminations (s : EnvState) (ale : AleStepResult)
    (a : AgentID) : a ∈ keys (stepTerminations s ale) → a ∈ s.agents := by
  unfold stepTerminations
  by_cases hgo : ale.game_over
  · rw [if_pos hgo]
    intro h
    simpa [keys] using h
  · rw [if_neg hgo]
    apply mem_keys_filterMap_guard
    intro p q hpq
    by_cases h : p.1 ∈ s.agents
    · rw [if_pos h] at hpq
      cases hpq
      exact h
    · rw [if_neg h] at hpq
      cases hpq

/-- Every key of the rewards dict is an active agent. -/
theorem mem_keys_step_rewards (s : EnvState) (d : AgentID → Option Nat)
    (ale : AleStepResult) (a : AgentID) :
    a ∈ keys (ParallelAtariEnv.step s d ale).1.rewards → a ∈ s.agents := by
  rw [step_rewards]
  apply mem_keys_filterMap_guard
  intro p q hpq
  by_cases h : p.1 ∈ s.agents
  · rw [if_pos h] at hpq
    cases hpq
    exact h
  · rw [if_neg h] at hpq
    cases hpq

/-- With a life count for every slot, the terminations dict is keyed by
exactly the active agents. -/
theorem keys_stepTerminations (s : EnvState) (ale : AleStepResult)
    (hsub : s.agents.Sublist s.possible_agents)
    (hnd : s.possible_agents.Nodup)
    (hlives : s.possible_agents.length ≤ ale.lives.length) :
    keys (stepTerminations s ale) = s.agents := by
  unfold stepTerminations
  by_cases hgo : ale.game_over
  · rw [if_pos hgo]
    show List.map Prod.fst (s.agents.map (fun agent => (agent, true))) = s.agents
    rw [List.map_map]
    exact List.map_id s.agents
  · rw [if_neg hgo]
    have h := keys_zip_filterMap (fun (_ : AgentID) (life : Int) => decide (life < 0))
      s.agents s.possible_agents ale.lives hlives
    exact h.trans (filter_mem_of_sublist hsub hnd)

/-- With a reward for every slot, the rewards dict is keyed by exactly the
active agents. -/
theorem keys_step_rewards (s : EnvState) (d : AgentID → Option Nat)
    (ale : AleStepResult)
    (hsub : s.agents.Sublist s.possible_agents)
    (hnd : s.possible_agents.Nodup)
    (hrew : s.possible_agents.length ≤ ale.rewards.length) :
    keys (ParallelAtariEnv.step s d ale).1.rewards = s.agents := by
  rw [step_rewards]
  have hfun : (fun p : AgentID × Int => if p.1 ∈ s.agents then some p else none)
      = (fun p : AgentID × Int =>
          if p.1 ∈ s.agents then some (p.1, p.2) else none) := by
    funext p
    cases p
    rfl
  rw [hfun]
  have h := keys_zip_filterMap (fun (_ : AgentID) (r : Int) => r)
    s.agents s.possible_agents ale.rewards hrew
  exact h.trans (filter_mem_of_sublist hsub hnd)

/-- Pruning only filters: the post-step active list is a sublist of the
pre-step one. -/
theorem step_agents_sublist (s : EnvState) (d : AgentID → Option Nat)
    (ale : AleStepResult) :
    (ParallelAtariEnv.step s d ale).2.agents.Sublist s.agents := by
  rw [step_new_agents]
  exact List.filter_sublist s.agents

/-- An agent absent from the active set stays absent through any run and
never appears among the keys of the reported rewards or terminations. -/
theorem run_preserves_removed :
    ∀ (inputs : List StepInput) (s : EnvState) (a : AgentID), a ∉ s.agents →
    a ∉ (ParallelAtariEnv.run s inputs).2.agents ∧
    ∀ out ∈ (ParallelAtariEnv.run s inputs).1,
      a ∉ keys out.rewards ∧ a ∉ keys out.terminations := by
  intro inputs
  induction inputs with
  | nil =>
    intro s a ha
    rw [run_nil]
    refine ⟨ha, ?_⟩
    intro out hout
    simp at hout
  | cons inp rest ih =>
    intro s a ha
    have hstep : a ∉ (ParallelAtariEnv.step s inp.action_dict inp.ale).2.agents :=
      fun hmem => ha ((step_agents_sublist s inp.action_dict inp.ale).subset hmem)
    obtain ⟨h1, h2⟩ := ih (ParallelAtariEnv.step s inp.action_dict inp.ale).2 a hstep
    rw [run_cons]
    refine ⟨h1, ?_⟩
    intro out hout
    rcases List.mem_cons.mp hout with rfl | htail
    · constructor
      · exact fun hk => ha (mem_keys_step_rewards s inp.action_dict inp.ale a hk)
      · intro hk
        rw [step_terminations] at hk
        exact ha (mem_keys_stepTerminations s inp.ale a hk)
    · exact h2 out htail

/-- Fallback output used with `List.getD` when indexing a run's outputs. -/
def emptyStepOutput : StepOutput :=
  ⟨[], [], [], [], [], []⟩

/-- The truncation flag reported at index `k` of a run equals the comparison
of the frame counter at that step against the cycle bound. -/
theorem run_truncation_flags :
    ∀ (inputs : List StepInput) (s : EnvState) (k : Nat),
      k < (ParallelAtariEnv.run s inputs).1.length →
      ∀ p : AgentID × Bool,
      p ∈ ((ParallelAtariEnv.run s inputs).1.getD k emptyStepOutput).truncations →
      p.2 = decide (s.frame + k + 1 ≥ s.max_cycles) := by
  intro inputs
  induction inputs with
  | nil =>
    intro s k hk
    rw [run_nil] at hk
    simp at hk
  | cons inp rest ih =>
    intro s k hk p hp
    cases k with
    | zero =>
      have hp0 : p ∈ (ParallelAtariEnv.step s inp.action_dict inp.ale).1.truncations := by
        rw [run_cons] at hp
        simpa using hp
      rw [step_truncations] at hp0
      obtain ⟨x, _, rfl⟩ := List.mem_map.mp hp0
      simp
    | succ k2 =>
      rw [run_cons] at hp hk
      simp only [List.getD_cons_succ] at hp
      simp only [List.length_cons] at hk
      have hk2 := Nat.lt_of_succ_lt_succ hk
      have h := ih (ParallelAtariEnv.step s inp.action_dict inp.ale).2 k2 hk2 p hp
      rw [step_frame, step_max_cycles] at h
      have harith : s.frame + (k2 + 1) + 1 = s.frame + 1 + k2 + 1 := by omega
      rw [harith]
      exact h

/-! ### Concrete sample inputs -/

/-- A two-player adapter state as produced right after `reset`, with a
two-step cycle bound. -/
def sampleEnv : EnvState :=
  { possible_agents := ["first_0", "second_0"],
    agents := ["first_0", "second_0"],
    frame := 0, max_cycles := 2,
    action_mapping := [0, 2, 3],
    terminations := [("first_0", false), ("second_0", false)],
    render_mode := none, obs_type := "rgb_image", screen := false }

/-- Emulator answers in which the second slot reports the negative life
sentinel. -/
def sampleAle : AleStepResult :=
  { rewards := [1, 0], game_over := false, lives := [3, -1], obs := [7] }

/-- Emulator answers in which both slots are still alive. -/
def sampleAleAlive : AleStepResult :=
  { rewards := [1, 0], game_over := false, lives := [3, 2], obs := [7] }

/-- One run step: empty action mapping, second slot eliminated. -/
def sampleInput : StepInput :=
  { action_dict := fun _ => none, ale := sampleAle }

/-- The sample state one step before the cycle bound fires. -/
def sampleEnvLast : EnvState :=
  { sampleEnv with frame := 1 }

/-! ### Claim theorems -/

/-- C1: every dictionary returned by `step` (observations, rewards,
terminations, truncations, infos) is keyed by exactly the agents active at
the start of the step — so an agent terminated in the current step still
appears in that step's returned dictionaries — while the active set is only
shrunk afterwards: an agent reported terminated is absent from the post-step
active set used to build the next step's input. -/
theorem ParallelAtariEnv.step_reports_preprune_active_set (s : EnvState)
    (d : AgentID → Option Nat) (ale : AleStepResult)
    (hsub : s.agents.Sublist s.possible_agents)
    (hnd : s.possible_agents.Nodup)
    (hrew : s.possible_agents.length ≤ ale.rewards.length)
    (hlives : s.possible_agents.length ≤ ale.lives.length) :
    keys (ParallelAtariEnv.step s d ale).1.observations = s.agents ∧
    keys (ParallelAtariEnv.step s d ale).1.rewards = s.agents ∧
    keys (ParallelAtariEnv.step s d ale).1.terminations = s.agents ∧
    keys (ParallelAtariEnv.step s d ale).1.truncations = s.agents ∧
    keys (ParallelAtariEnv.step s d ale).1.infos = s.agents ∧
    ∀ a ∈ s.agents,
      dictLookup (ParallelAtariEnv.step s d ale).1.terminations a = some true →
      a ∉ (ParallelAtariEnv.step s d ale).2.agents := by
  refine ⟨?_, keys_step_rewards s d ale hsub hnd hrew, ?_, ?_, ?_, ?_⟩
  · rw [step_observations]
    show List.map Prod.fst (s.agents.map (fun agent => (agent, ale.obs))) = s.agents
    rw [List.map_map]
    exact List.map_id s.agents
  · rw [step_terminations]
    exact keys_stepTerminations s ale hsub hnd hlives
  · rw [step_truncations]
    show List.map Prod.fst
      (s.agents.map (fun agent => (agent, decide (s.frame + 1 ≥ s.max_cycles))))
      = s.agents
    rw [List.map_map]
    exact List.map_id s.agents
  · rw [step_infos]
    have h := keys_filterMap_guard ([] : List (String × String)) s.agents
      s.possible_agents
    exact h.trans (filter_mem_of_sublist hsub hnd)
  · intro a _ hterm hmem
    rw [step_new_agents, List.mem_filter] at hmem
    rw [step_terminations] at hterm
    rw [hterm] at hmem
    simp at hmem

/-- Witness for C1 on the concrete sample: with the second slot reporting a
negative life count, the step's terminations dict is still keyed by both
active agents, and the pruned active set no longer holds the second agent. -/
theorem step_reports_preprune_active_set_witness :
    keys (ParallelAtariEnv.step sampleEnv (fun _ => none) sampleAle).1.terminations
      = sampleEnv.agents ∧
    "second_0" ∉ (ParallelAtariEnv.step sampleEnv (fun _ => none) sampleAle).2.agents :=
  ⟨(ParallelAtariEnv.step_reports_preprune_active_set sampleEnv (fun _ => none)
      sampleAle (List.Sublist.refl _) (by decide) (by decide) (by decide)).2.2.1,
   (ParallelAtariEnv.step_reports_preprune_active_set sampleEnv (fun _ => none)
      sampleAle (List.Sublist.refl _) (by decide) (by decide) (by decide)).2.2.2.2.2
     "second_0" (by decide) (by decide)⟩

/-- C2: on emulator game-over every active agent's termination flag is true;
otherwise an active agent's flag is true iff the life count of its player
slot is negative; an agent outside the active set never appears in the
terminations mapping. -/
theorem ParallelAtariEnv.step_termination_semantics (s : EnvState)
    (d : AgentID → Option Nat) (ale : AleStepResult)
    (hnd : s.possible_agents.Nodup) :
    (ale.game_over = true →
      (ParallelAtariEnv.step s d ale).1.terminations
        = s.agents.map (fun agent => (agent, true))) ∧
    (ale.game_over = false →
      ∀ (a : AgentID) (life : Int),
        (a, life) ∈ s.possible_agents.zip ale.lives → a ∈ s.agents →
        dictLookup (ParallelAtariEnv.step s d ale).1.terminations a
          = some (decide (life < 0))) ∧
    (∀ a : AgentID, a ∉ s.agents →
      dictLookup (ParallelAtariEnv.step s d ale).1.terminations a = none) := by
  refine ⟨?_, ?_, ?_⟩
  · intro hgo
    rw [step_terminations]
    unfold stepTerminations
    rw [if_pos hgo]
  · intro hgo a life hpair hag
    rw [step_terminations]
    unfold stepTerminations
    rw [if_neg (by simp [hgo])]
    exact dictLookup_zip_filterMap s.agents s.possible_agents ale.lives hnd
      a life hpair hag
  · intro a ha
    rw [step_terminations]
    apply dictLookup_eq_none_of_not_mem_keys
    intro hk
    exact ha (mem_keys_stepTerminations s ale a hk)

/-- Witness for C2: the second agent's slot is zipped with life count -1 and
its reported flag is true; an agent not in the roster has no entry. -/
theorem step_termination_semantics_witness :
    dictLookup
        (ParallelAtariEnv.step sampleEnv (fun _ => none) sampleAle).1.terminations
        "second_0" = some (decide ((-1 : Int) < 0)) ∧
    dictLookup
        (ParallelAtariEnv.step sampleEnv (fun _ => none) sampleAle).1.terminations
        "third_0" = none :=
  ⟨(ParallelAtariEnv.step_termination_semantics sampleEnv (fun _ => none) sampleAle
      (by decide)).2.1 rfl "second_0" (-1) (by decide) (by decide),
   (ParallelAtariEnv.step_termination_semantics sampleEnv (fun _ => none) sampleAle
      (by decide)).2.2 "third_0" (by decide)⟩

/-- C3: starting an episode with frame counter 0 and cycle bound N, the
truncation flag reported for every active agent at the k-th step of a run is
exactly the comparison step-number ≥ N: false on steps 1..N-1, true from
step N on. -/
theorem ParallelAtariEnv.truncation_fires_at_max_cycles (s : EnvState)
    (inputs : List StepInput) (N : Nat) (hf : s.frame = 0)
    (hN : s.max_cycles = N) (k : Nat)
    (hk : k < (ParallelAtariEnv.run s inputs).1.length) (p : AgentID × Bool)
    (hp : p ∈ ((ParallelAtariEnv.run s inputs).1.getD k
        emptyStepOutput).truncations) :
    p.2 = decide (k + 1 ≥ N) := by
  have h := run_truncation_flags inputs s k hk p hp
  rw [hf, hN] at h
  simpa using h

/-- Witness for C3: on the first step of a two-cycle episode the first
agent's truncation flag is false. -/
theorem truncation_fires_at_max_cycles_witness :
    (("first_0", false) : AgentID × Bool).2 = decide (0 + 1 ≥ 2) :=
  ParallelAtariEnv.truncation_fires_at_max_cycles sampleEnv [sampleInput] 2
    rfl rfl 0 (by decide) ("first_0", false) (by decide)

/-- C4: each step leaves the active set a sublist of what it was, and an
agent once absent from the active set never reappears in it nor among the
keys of any subsequent step's rewards or terminations output. -/
theorem ParallelAtariEnv.active_set_monotone (s : EnvState)
    (d : AgentID → Option Nat) (ale : AleStepResult)
    (inputs : List StepInput) (a : AgentID) :
    (ParallelAtariEnv.step s d ale).2.agents.Sublist s.agents ∧
    (a ∉ s.agents →
      a ∉ (ParallelAtariEnv.run s inputs).2.agents ∧
      ∀ out ∈ (ParallelAtariEnv.run s inputs).1,
        a ∉ keys out.rewards ∧ a ∉ keys out.terminations) :=
  ⟨step_agents_sublist s d ale, fun ha => run_preserves_removed inputs s a ha⟩

/-- Witness for C4 at a concrete removed agent and a one-step run. -/
theorem active_set_monotone_witness :
    "third_0" ∉ sampleEnv.agents ∧
    "third_0" ∉ (ParallelAtariEnv.run sampleEnv [sampleInput]).2.agents :=
  ⟨by decide,
   ((ParallelAtariEnv.active_set_monotone sampleEnv (fun _ => none) sampleAle
      [sampleInput] "third_0").2 (by decide)).1⟩

/-- C5: after reset the active set is the full possible-agent roster, the
frame counter is zero, all termination flags are cleared, and the return
value pairs every active agent with the one shared observation plus an empty
info mapping keyed by the active agents. -/
theorem ParallelAtariEnv.reset_restores_full_roster (s : EnvState) (obs : Obs) :
    (ParallelAtariEnv.reset s obs).2.agents = s.possible_agents ∧
    (ParallelAtariEnv.reset s obs).2.frame = 0 ∧
    (ParallelAtariEnv.reset s obs).2.terminations
      = s.possible_agents.map (fun agent => (agent, false)) ∧
    (ParallelAtariEnv.reset s obs).1.1
      = (ParallelAtariEnv.reset s obs).2.agents.map (fun agent => (agent, obs)) ∧
    (ParallelAtariEnv.reset s obs).1.2
      = (ParallelAtariEnv.reset s obs).2.agents.map
          (fun agent => (agent, ([] : List (String × String)))) :=
  ⟨rfl, rfl, rfl, rfl,
   filterMap_guard_eq_map ([] : List (String × String)) s.possible_agents
     s.possible_agents (fun _ ha => ha)⟩

/-- C6: the vector handed to the emulator has one slot per possible agent;
each slot holds the agent's supplied action (zero when the agent is absent
from the mapping) translated through the action-mapping table. -/
theorem ParallelAtariEnv.step_action_vector (s : EnvState)
    (d : AgentID → Option Nat) (ale : AleStepResult) :
    (ParallelAtariEnv.step s d ale).1.sentActions.length
        = s.possible_agents.length ∧
    (ParallelAtariEnv.step s d ale).1.sentActions
      = s.possible_agents.map
          (fun agent => s.action_mapping.getD ((d agent).getD 0) 0) := by
  have hb := buildActions_eq s.possible_agents d
  constructor
  · rw [step_sentActions, List.length_map, hb, List.length_map]
  · rw [step_sentActions, hb, List.map_map]
    rfl

/-- C9: calling render with no configured render mode only logs a warning
and returns no frame; the adapter state is returned unchanged. -/
theorem ParallelAtariEnv.render_without_mode_warns (s : EnvState) (img : Obs)
    (h : s.render_mode = none) :
    ParallelAtariEnv.render s img
      = ({ frame := none, warned := true, failed := false }, s) := by
  simp [ParallelAtariEnv.render, h]

/-- Witness for C9 on the sample state (whose render mode is unset). -/
theorem render_without_mode_warns_witness :
    ParallelAtariEnv.render sampleEnv [5]
      = ({ frame := none, warned := true, failed := false }, sampleEnv) :=
  ParallelAtariEnv.render_without_mode_warns sampleEnv [5] rfl

/-- C10: truncation never removes agents: when no termination flag is true
(no game-over and no negative life count), a step at or past the cycle bound
leaves the active set unchanged — pruning is driven solely by termination. -/
theorem ParallelAtariEnv.truncation_never_prunes (s : EnvState)
    (d : AgentID → Option Nat) (ale : AleStepResult)
    (hsub : s.agents.Sublist s.possible_agents)
    (hnd : s.possible_agents.Nodup)
    (hlen : s.possible_agents.length ≤ ale.lives.length)
    (hgo : ale.game_over = false)
    (hlives : ∀ life ∈ ale.lives, (0 : Int) ≤ life)
    (htrunc : s.frame + 1 ≥ s.max_cycles) :
    (ParallelAtariEnv.step s d ale).2.agents = s.agents := by
  rw [step_new_agents, List.filter_eq_self]
  intro a ha
  obtain ⟨life, hpair⟩ :=
    exists_zip_pair s.possible_agents ale.lives a (hsub.subset ha) hlen
  have hterm : dictLookup (stepTerminations s ale) a
      = some (decide (life < 0)) := by
    unfold stepTerminations
    rw [if_neg (by simp [hgo])]
    exact dictLookup_zip_filterMap s.agents s.possible_agents ale.lives hnd
      a life hpair ha
  have hnonneg : (0 : Int) ≤ life := hlives life (List.of_mem_zip hpair).2
  rw [hterm]
  simp
  omega

/-- Witness for C10: a step taken at the cycle bound with all lives
nonnegative leaves the two-agent active set intact. -/
theorem truncation_never_prunes_witness :
    (ParallelAtariEnv.step sampleEnvLast (fun _ => none) sampleAleAlive).2.agents
      = sampleEnvLast.agents :=
  ParallelAtariEnv.truncation_never_prunes sampleEnvLast (fun _ => none)
    sampleAleAlive (List.Sublist.refl _) (by decide) (by decide) rfl
    (by decide) (by decide)

/-- C7: when the ROM file exists in none of the three searched locations
(the start directory, its "roms" subdirectory, and the legacy per-game
"ROM" subdirectory), construction fails with the resource-not-found error. -/
theorem ParallelAtariEnv.init_rom_not_found (ale : AleModel) (game : String)
    (num_players : Nat) (mode_num : Option Nat) (obs_type : String)
    (full_action_space : Bool) (max_cycles : Nat)
    (render_mode : Option String) (auto_rom_install_path : Option String)
    (hobs : obs_type = "ram" ∨ obs_type = "rgb_image"
      ∨ obs_type = "grayscale_image")
    (h1 : ale.fileExists
      (romCand1 (initStart ale auto_rom_install_path) game) = false)
    (h2 : ale.fileExists
      (romCand2 (initStart ale auto_rom_install_path) game) = false)
    (h3 : ale.fileExists
      (romCand3 (initStart ale auto_rom_install_path) game) = false) :
    ParallelAtariEnv.init ale game num_players mode_num obs_type
        full_action_space max_cycles render_mode auto_rom_install_path
      = Except.error InitError.resourceNotFound := by
  have hsearch : romSearch ale.fileExists
      (initStart ale auto_rom_install_path) game = none := by
    unfold romSearch
    rw [h1, h2, h3]
    simp
  simp only [ParallelAtariEnv.init]
  rw [if_pos hobs, hsearch]

/-- An emulator model over an empty filesystem. -/
def emptyFsAle : AleModel :=
  { packageDir := "pkg", fileExists := fun _ => false,
    availableModes := fun _ => [1], numPlayersActive := fun _ => 2,
    minimalActionSet := [0, 1] }

/-- Witness for C7: constructing over the empty filesystem fails with the
resource-not-found error. -/
theorem init_rom_not_found_witness :
    ParallelAtariEnv.init emptyFsAle "pong" 2 none "ram" false 100 none none
      = Except.error InitError.resourceNotFound :=
  ParallelAtariEnv.init_rom_not_found emptyFsAle "pong" 2 none "ram" false 100
    none none (Or.inl rfl) rfl rfl rfl

/-- C8: construction fails with the configuration error, at construction
time, when an explicitly requested mode is not among the emulator's
enumerated modes for the requested player count, or when the requested
player count differs from what the emulator reports active for the chosen
mode — whether that mode was requested explicitly or defaulted to the first
enumerated one because no mode selector was given. -/
theorem ParallelAtariEnv.init_configuration_error (ale : AleModel)
    (game : String) (num_players m : Nat) (obs_type : String)
    (full_action_space : Bool) (max_cycles : Nat)
    (render_mode : Option String) (auto_rom_install_path : Option String)
    (pth : String)
    (hobs : obs_type = "ram" ∨ obs_type = "rgb_image"
      ∨ obs_type = "grayscale_image")
    (hrom : romSearch ale.fileExists (initStart ale auto_rom_install_path) game
      = some pth) :
    (m ∉ ale.availableModes num_players →
      ParallelAtariEnv.init ale game num_players (some m) obs_type
          full_action_space max_cycles render_mode auto_rom_install_path
        = Except.error InitError.configurationError) ∧
    (m ∈ ale.availableModes num_players →
      num_players ≠ ale.numPlayersActive m →
      ParallelAtariEnv.init ale game num_players (some m) obs_type
          full_action_space max_cycles render_mode auto_rom_install_path
        = Except.error InitError.configurationError) ∧
    ((ale.availableModes num_players).head? = some m →
      num_players ≠ ale.numPlayersActive m →
      ParallelAtariEnv.init ale game num_players none obs_type
          full_action_space max_cycles render_mode auto_rom_install_path
        = Except.error InitError.configurationError) := by
  refine ⟨?_, ?_, ?_⟩
  · intro hm
    simp only [ParallelAtariEnv.init]
    rw [if_pos hobs, hrom]
    simp [resolveMode, hm]
  · intro hm hnp
    simp only [ParallelAtariEnv.init]
    rw [if_pos hobs, hrom]
    simp [resolveMode, hm, hnp]
  · intro hhead hnp
    simp only [ParallelAtariEnv.init]
    rw [if_pos hobs, hrom]
    simp [resolveMode, hhead, hnp]

/-- An emulator model whose ROMs all exist, that supports only mode 1 for
any player count, and that reports four active players in every mode. -/
def fullFsAle : AleModel :=
  { packageDir := "pkg", fileExists := fun _ => true,
    availableModes := fun _ => [1], numPlayersActive := fun _ => 4,
    minimalActionSet := [0, 1] }

/-- Witness for C8: requesting the unsupported mode 5 fails; requesting the
supported mode 1 with a player count the emulator does not report active
fails; and giving no mode selector, so that mode 1 is defaulted to, fails on
the same player-count mismatch — all with the configuration error. -/
theorem init_configuration_error_witness :
    ParallelAtariEnv.init fullFsAle "boxing" 2 (some 5) "ram" false 10 none none
      = Except.error InitError.configurationError ∧
    ParallelAtariEnv.init fullFsAle "boxing" 2 (some 1) "ram" false 10 none none
      = Except.error InitError.configurationError ∧
    ParallelAtariEnv.init fullFsAle "boxing" 2 none "ram" false 10 none none
      = Except.error InitError.configurationError :=
  ⟨(ParallelAtariEnv.init_configuration_error fullFsAle "boxing" 2 5 "ram"
      false 10 none none (romCand1 "pkg" "boxing") (Or.inl rfl) rfl).1
      (by decide),
   (ParallelAtariEnv.init_configuration_error fullFsAle "boxing" 2 1 "ram"
      false 10 none none (romCand1 "pkg" "boxing") (Or.inl rfl) rfl).2.1
      (by decide) (by decide),
   (ParallelAtariEnv.init_configuration_error fullFsAle "boxing" 2 1 "ram"
      false 10 none none (romCand1 "pkg" "boxing") (Or.inl rfl) rfl).2.2
      (by decide) (by decide)⟩
